import Mathlib

/-!
# Verification of the betfinio/variables-ui publish pipeline

Shallow embedding of the two source files of the repository:

* `src/services/ipfsUploader.ts` — `getPinataInstance`, `uploadConfigToIPFS`,
  `isPinataConfigured`, `getUploadStatusMessage`;
* `src/components/EnvironmentTab.tsx` / the `ConfigManager` component — the
  key/value edit handlers (`handleUpdateValue`, `handleUpdateKey`,
  `handleAddKey`, `handleRemoveKey`) over the per-environment configuration
  records, and `handleUploadAndPublish` which drives the publish pipeline.

JavaScript objects (`Record<string, …>`) are embedded as insertion-ordered
association lists with the ECMAScript property semantics: assignment to an
existing key updates the value in place, assignment to a fresh key appends,
`delete` removes the entry.  The platform builtins `JSON.stringify(·, null, 2)`
and `JSON.parse` are embedded for the fragment the program serializes (objects
whose values are strings), following ECMA-262 `QuoteJSONString` /
the JSON grammar.  Network effects (Pinata authentication, blob upload, IPNS
publish) are embedded as an oracle `World` together with an explicit event
trace, so ordering claims become statements about the produced trace.
-/

namespace VariablesUI

/-! ## JavaScript object model -/

/-- Embedding of a JavaScript object as an insertion-ordered association
list.  The value type is left abstract; entries are keyed by strings. -/
abbrev JsObj (α : Type) := List (String × α)

/-- Property read `o[k]`: the value at key `k`, `none` when the key is
absent (JavaScript `undefined`). -/
def jsGet {α : Type} : JsObj α → String → Option α
  | [], _ => none
  | (k', v) :: rest, k => if k' = k then some v else jsGet rest k

/-- Property write `o[k] = v` (also the effect of a spread-with-override
`{...o, [k]: v}`): an existing key keeps its position and gets the new
value, a fresh key is appended. -/
def jsSet {α : Type} : JsObj α → String → α → JsObj α
  | [], k, v => [(k, v)]
  | (k', v') :: rest, k, v =>
      if k' = k then (k', v) :: rest else (k', v') :: jsSet rest k v

/-- Property removal `delete o[k]`. -/
def jsDelete {α : Type} : JsObj α → String → JsObj α
  | [], _ => []
  | (k', v') :: rest, k => if k' = k then rest else (k', v') :: jsDelete rest k

theorem jsGet_jsSet_ne {α : Type} (o : JsObj α) (k k' : String) (v : α)
    (h : k' ≠ k) : jsGet (jsSet o k v) k' = jsGet o k' := by
  induction o with
  | nil => simp [jsSet, jsGet, Ne.symm h]
  | cons kv rest ih =>
      obtain ⟨k₀, v₀⟩ := kv
      by_cases hk : k₀ = k
      · subst hk
        simp only [jsSet, if_pos rfl, jsGet]
        rw [if_neg (fun hh => h hh.symm), if_neg (fun hh => h hh.symm)]
      · simp only [jsSet, if_neg hk, jsGet]
        by_cases hk' : k₀ = k'
        · simp [hk']
        · simp [hk', ih]

theorem jsGet_jsSet_self {α : Type} (o : JsObj α) (k : String) (v : α) :
    jsGet (jsSet o k v) k = some v := by
  induction o with
  | nil => simp [jsSet, jsGet]
  | cons kv rest ih =>
      obtain ⟨k₀, v₀⟩ := kv
      by_cases hk : k₀ = k
      · simp [jsSet, jsGet, hk]
      · simp [jsSet, jsGet, hk, ih]

theorem jsDelete_of_absent {α : Type} (o : JsObj α) (k : String)
    (h : jsGet o k = none) : jsDelete o k = o := by
  induction o with
  | nil => rfl
  | cons kv rest ih =>
      obtain ⟨k₀, v₀⟩ := kv
      by_cases hk : k₀ = k
      · simp [jsGet, hk] at h
      · simp only [jsGet, if_neg hk] at h
        simp [jsDelete, hk, ih h]

/-! ## Edit handlers of the `ConfigManager` component

The component state `fetchedConfigs : Record<string, FetchedConfig>` holds,
per environment label, the fetched configuration object.  A configuration
value is a string, or JavaScript `undefined` (reachable through
`handleUpdateKey` when the renamed key is absent); `undefined` is embedded
as `Option.none`. -/

/-- The configuration object of one environment: keys to string values, where
`none` is a property whose value is JavaScript `undefined`. -/
abbrev EnvConfig := JsObj (Option String)

/-- The `fetchedConfigs` state: environment label to configuration object. -/
abbrev ConfigStore := JsObj EnvConfig

/-- Read of `prev[environmentName]` as used by the handlers: spread of `undefined`
yields the empty object, so an absent environment reads as `[]`. -/
def storeConfig (st : ConfigStore) (env : String) : EnvConfig :=
  (jsGet st env).getD []

/-- Handler `handleUpdateValue`: `{...prev, [env]: {...prev[env], [key]: value}}`. -/
def handleUpdateValue (st : ConfigStore) (env key value : String) : ConfigStore :=
  jsSet st env (jsSet (storeConfig st env) key (some value))

/-- Handler `handleUpdateKey`: rename `oldKey` to `newKey` inside `prev[env]` by
copy, `delete config[oldKey]`, `config[newKey] = value` — where `value` is
the (possibly `undefined`) read `config[oldKey]`.  A no-op when the two
keys coincide. -/
def handleUpdateKey (st : ConfigStore) (env oldKey newKey : String) : ConfigStore :=
  if oldKey = newKey then st
  else
    jsSet st env
      (jsSet (jsDelete (storeConfig st env) oldKey) newKey
        ((jsGet (storeConfig st env) oldKey).join))

/-- Handler `handleAddKey`: a no-op on a blank key, otherwise
`{...prev, [env]: {...(prev[env] || \x7b\x7d), [key]: value}}`. -/
def handleAddKey (st : ConfigStore) (env key value : String) : ConfigStore :=
  if key.trim = "" then st
  else jsSet st env (jsSet (storeConfig st env) key (some value))

/-- Handler `handleRemoveKey`: `{...prev, [env]: copy-of-prev[env] minus key}`. -/
def handleRemoveKey (st : ConfigStore) (env key : String) : ConfigStore :=
  jsSet st env (jsDelete (storeConfig st env) key)

/-- The key-value mapping environment `env` presents after the handlers ran:
lookup inside the configuration object of that environment. -/
def storeLookup (st : ConfigStore) (env key : String) : Option (Option String) :=
  jsGet (storeConfig st env) key

theorem storeConfig_jsSet_self (st : ConfigStore) (env : String) (c : EnvConfig) :
    storeConfig (jsSet st env c) env = c := by
  simp [storeConfig, jsGet_jsSet_self]

/-- C10: every `ConfigManager` edit handler (update value, rename key, add
key, remove key) applied to environment `env` leaves the stored
configuration of every other environment label untouched, and removing a
key that is absent from the configuration of `env` leaves that configuration
unchanged as a key-value mapping. -/
theorem editHandlers_frame (st : ConfigStore) (env env' key value oldKey newKey : String)
    (hne : env' ≠ env) :
    jsGet (handleUpdateValue st env key value) env' = jsGet st env' ∧
    jsGet (handleUpdateKey st env oldKey newKey) env' = jsGet st env' ∧
    jsGet (handleAddKey st env key value) env' = jsGet st env' ∧
    jsGet (handleRemoveKey st env key) env' = jsGet st env' ∧
    (storeLookup st env key = none →
      ∀ q, storeLookup (handleRemoveKey st env key) env q = storeLookup st env q) := by
  refine ⟨jsGet_jsSet_ne _ _ _ _ hne, ?_, ?_, jsGet_jsSet_ne _ _ _ _ hne, ?_⟩
  · unfold handleUpdateKey
    split
    · rfl
    · exact jsGet_jsSet_ne _ _ _ _ hne
  · unfold handleAddKey
    split
    · rfl
    · exact jsGet_jsSet_ne _ _ _ _ hne
  · intro habs q
    unfold handleRemoveKey storeLookup
    rw [storeConfig_jsSet_self, jsDelete_of_absent _ _ habs]

/-- C10 witness: the frame property evaluated on a concrete two-environment
store, editing `dev` and observing `prod`. -/
theorem editHandlers_frame_witness :
    (("prod" : String) ≠ "dev") ∧
    (jsGet (handleUpdateValue [("dev", [("a", some "1")]), ("prod", [("x", some "9")])] "dev" "b" "2") "prod"
        = jsGet [("dev", [("a", some "1")]), ("prod", [("x", some "9")])] "prod" ∧
      jsGet (handleUpdateKey [("dev", [("a", some "1")]), ("prod", [("x", some "9")])] "dev" "a" "c") "prod"
        = jsGet [("dev", [("a", some "1")]), ("prod", [("x", some "9")])] "prod" ∧
      jsGet (handleAddKey [("dev", [("a", some "1")]), ("prod", [("x", some "9")])] "dev" "b" "2") "prod"
        = jsGet [("dev", [("a", some "1")]), ("prod", [("x", some "9")])] "prod" ∧
      jsGet (handleRemoveKey [("dev", [("a", some "1")]), ("prod", [("x", some "9")])] "dev" "b") "prod"
        = jsGet [("dev", [("a", some "1")]), ("prod", [("x", some "9")])] "prod" ∧
      (storeLookup [("dev", [("a", some "1")]), ("prod", [("x", some "9")])] "dev" "b" = none →
        ∀ q, storeLookup (handleRemoveKey [("dev", [("a", some "1")]), ("prod", [("x", some "9")])] "dev" "b") "dev" q
          = storeLookup [("dev", [("a", some "1")]), ("prod", [("x", some "9")])] "dev" q)) :=
  ⟨by decide, editHandlers_frame _ "dev" "prod" "b" "2" "a" "c" (by decide)⟩

/-! ## Snapshot codec: `JSON.stringify(config, null, 2)` / `JSON.parse`

`uploadConfigToIPFS` serializes the configuration with
`JSON.stringify(config, null, 2)`; the raw-JSON editor reads it back with
`JSON.parse`.  The configuration is a JavaScript object whose values are
strings, so the codec is embedded for exactly that fragment: the encoder
follows ECMA-262 `QuoteJSONString` (named escapes for `\b \t \n \f \r`,
backslash and quote, `\u00XX` for the remaining control characters) and the
two-space-indent object layout of `JSON.stringify`; the parser follows the
JSON grammar restricted to objects with string values — any other JSON
value, which the program never produces for a snapshot, is rejected with
`none`. -/

/-- A configuration snapshot: an insertion-ordered list of key/value string
pairs, the entries of the JavaScript object handed to `JSON.stringify`. -/
abbrev Snapshot := List (String × String)

/-- Lower-case hexadecimal digit character for `n < 16`. -/
def hexDigitChar (n : Nat) : Char :=
  if n < 10 then Char.ofNat (48 + n) else Char.ofNat (87 + n)

/-- ECMA-262 `QuoteJSONString` escape of one character. -/
def escapeChar (c : Char) : List Char :=
  if c = '\"' then ['\\', '\"']
  else if c = '\\' then ['\\', '\\']
  else if c.toNat = 8 then ['\\', 'b']
  else if c.toNat = 9 then ['\\', 't']
  else if c.toNat = 10 then ['\\', 'n']
  else if c.toNat = 12 then ['\\', 'f']
  else if c.toNat = 13 then ['\\', 'r']
  else if c.toNat < 32 then
    ['\\', 'u', '0', '0', hexDigitChar (c.toNat / 16), hexDigitChar (c.toNat % 16)]
  else [c]

/-- Escape every character of a string body. -/
def escapeList : List Char → List Char
  | [] => []
  | c :: rest => escapeChar c ++ escapeList rest

/-- The JSON string literal for `s`: quote, escaped body, quote. -/
def quoteChars (s : String) : List Char :=
  '\"' :: (escapeList s.data ++ ['\"'])

/-- The member list of `JSON.stringify(·, null, 2)` starting at the first
key opening quote: each member is `"key": "value"`, members after the
first are preceded by `,\n` and the two-space indent. -/
def memberChars : Snapshot → List Char
  | [] => []
  | (k, v) :: rest =>
      quoteChars k ++ ':' :: ' ' :: quoteChars v ++
        (match rest with
         | [] => []
         | _ :: _ => ',' :: '\n' :: ' ' :: ' ' :: memberChars rest)

/-- Embedding of `JSON.stringify(config, null, 2)`: the empty object prints as `\x7b\x7d`,
otherwise the members are laid out one per line behind a two-space indent. -/
def encode (s : Snapshot) : String :=
  match s with
  | [] => "\x7b\x7d"
  | _ :: _ =>
      String.mk ('\x7b' :: '\n' :: ' ' :: ' ' :: (memberChars s ++ ['\n', '\x7d']))

/-- Numeric value of a hexadecimal digit character (both cases accepted,
as in the JSON grammar). -/
def hexVal (c : Char) : Option Nat :=
  if '0' ≤ c ∧ c ≤ '9' then some (c.toNat - 48)
  else if 'a' ≤ c ∧ c ≤ 'f' then some (c.toNat - 87)
  else if 'A' ≤ c ∧ c ≤ 'F' then some (c.toNat - 55)
  else none

/-- The character for a `\uXXXX` code unit: defined for Unicode scalar
values; an unpaired surrogate has no scalar-value embedding and is
rejected (the encoder never emits one for a well-formed string). -/
def codeUnitChar (n : Nat) : Option Char :=
  if n < 55296 ∨ (57344 ≤ n ∧ n < 1114112) then some (Char.ofNat n) else none

/-- Prepend a decoded character to a string-body parse result. -/
def pcons (c : Char) : Option (List Char × List Char) → Option (List Char × List Char)
  | some (s, r) => some (c :: s, r)
  | none => none

/-- JSON string-body parser, entered after the opening quote: consumes up
to and including the closing quote, resolving escapes, and returns the
decoded body together with the unconsumed remainder.  Raw control
characters are forbidden by the JSON grammar. -/
def parseStringBody : List Char → Option (List Char × List Char)
  | [] => none
  | c :: rest =>
    if c = '\"' then some ([], rest)
    else if c = '\\' then
      match rest with
      | [] => none
      | e :: rest2 =>
        if e = '\"' then pcons '\"' (parseStringBody rest2)
        else if e = '\\' then pcons '\\' (parseStringBody rest2)
        else if e = '/' then pcons '/' (parseStringBody rest2)
        else if e = 'b' then pcons (Char.ofNat 8) (parseStringBody rest2)
        else if e = 't' then pcons (Char.ofNat 9) (parseStringBody rest2)
        else if e = 'n' then pcons (Char.ofNat 10) (parseStringBody rest2)
        else if e = 'f' then pcons (Char.ofNat 12) (parseStringBody rest2)
        else if e = 'r' then pcons (Char.ofNat 13) (parseStringBody rest2)
        else if e = 'u' then
          match rest2 with
          | h1 :: h2 :: h3 :: h4 :: rest3 =>
            match hexVal h1, hexVal h2, hexVal h3, hexVal h4 with
            | some a, some b, some c2, some d =>
              match codeUnitChar (4096 * a + 256 * b + 16 * c2 + d) with
              | some ch => pcons ch (parseStringBody rest3)
              | none => none
            | _, _, _, _ => none
          | _ => none
        else none
    else if c.toNat < 32 then none
    else pcons c (parseStringBody rest)

theorem hexVal_hexDigitChar : ∀ n : Nat, n < 16 → hexVal (hexDigitChar n) = some n := by
  decide

theorem parseStringBody_escapeChar (c : Char) (tail : List Char) :
    parseStringBody (escapeChar c ++ tail) = pcons c (parseStringBody tail) := by
  by_cases h1 : c = '\"'
  · subst h1; simp only [escapeChar, if_pos rfl, List.cons_append, List.nil_append]
    rw [parseStringBody.eq_def]; simp
  by_cases h2 : c = '\\'
  · subst h2; simp only [escapeChar, if_neg h1, if_pos rfl, List.cons_append,
      List.nil_append]
    rw [parseStringBody.eq_def]; simp
  by_cases h3 : c.toNat = 8
  · have hc : Char.ofNat 8 = c := by rw [← h3, Char.ofNat_toNat]
    simp only [escapeChar, if_neg h1, if_neg h2, if_pos h3, List.cons_append,
      List.nil_append]
    rw [parseStringBody.eq_def]; simp; rw [hc]
  by_cases h4 : c.toNat = 9
  · have hc : Char.ofNat 9 = c := by rw [← h4, Char.ofNat_toNat]
    simp only [escapeChar, if_neg h1, if_neg h2, if_neg h3, if_pos h4,
      List.cons_append, List.nil_append]
    rw [parseStringBody.eq_def]; simp; rw [hc]
  by_cases h5 : c.toNat = 10
  · have hc : Char.ofNat 10 = c := by rw [← h5, Char.ofNat_toNat]
    simp only [escapeChar, if_neg h1, if_neg h2, if_neg h3, if_neg h4, if_pos h5,
      List.cons_append, List.nil_append]
    rw [parseStringBody.eq_def]; simp; rw [hc]
  by_cases h6 : c.toNat = 12
  · have hc : Char.ofNat 12 = c := by rw [← h6, Char.ofNat_toNat]
    simp only [escapeChar, if_neg h1, if_neg h2, if_neg h3, if_neg h4, if_neg h5,
      if_pos h6, List.cons_append, List.nil_append]
    rw [parseStringBody.eq_def]; simp; rw [hc]
  by_cases h7 : c.toNat = 13
  · have hc : Char.ofNat 13 = c := by rw [← h7, Char.ofNat_toNat]
    simp only [escapeChar, if_neg h1, if_neg h2, if_neg h3, if_neg h4, if_neg h5,
      if_neg h6, if_pos h7, List.cons_append, List.nil_append]
    rw [parseStringBody.eq_def]; simp; rw [hc]
  by_cases h8 : c.toNat < 32
  · have hd1 : hexVal (hexDigitChar (c.toNat / 16)) = some (c.toNat / 16) :=
      hexVal_hexDigitChar _ (by omega)
    have hd2 : hexVal (hexDigitChar (c.toNat % 16)) = some (c.toNat % 16) :=
      hexVal_hexDigitChar _ (by omega)
    have hcu : codeUnitChar (16 * (c.toNat / 16) + c.toNat % 16) = some c := by
      have hsum : 16 * (c.toNat / 16) + c.toNat % 16 = c.toNat := by omega
      rw [hsum, codeUnitChar, if_pos (Or.inl (by omega)), Char.ofNat_toNat]
    simp only [escapeChar, if_neg h1, if_neg h2, if_neg h3, if_neg h4, if_neg h5,
      if_neg h6, if_neg h7, if_pos h8, List.cons_append, List.nil_append]
    have hzero : hexVal '0' = some 0 := by decide
    rw [parseStringBody.eq_def]; simp [hzero, hd1, hd2, hcu]
  · simp only [escapeChar, if_neg h1, if_neg h2, if_neg h3, if_neg h4, if_neg h5,
      if_neg h6, if_neg h7, if_neg h8, List.cons_append, List.nil_append]
    rw [parseStringBody.eq_def]; simp [h1, h2, h8]

theorem parseStringBody_escapeList (cs rest : List Char) :
    parseStringBody (escapeList cs ++ '\"' :: rest) = some (cs, rest) := by
  induction cs with
  | nil =>
      simp only [escapeList, List.nil_append]
      rw [parseStringBody.eq_def]; simp
  | cons c cs ih =>
      rw [escapeList, List.append_assoc, parseStringBody_escapeChar, ih]
      rfl

theorem parseStringBody_quoteChars (s : String) (rest : List Char) :
    parseStringBody (escapeList s.data ++ '\"' :: rest) = some (s.data, rest) :=
  parseStringBody_escapeList _ _

/-- JSON insignificant whitespace: space, tab, line feed, carriage return. -/
def isJsonWs (c : Char) : Bool :=
  c = ' ' ∨ c = '\t' ∨ c = '\n' ∨ c = '\x0d'

/-- Drop leading JSON whitespace. -/
def skipWs : List Char → List Char
  | [] => []
  | c :: rest => if isJsonWs c then skipWs rest else c :: rest

/-- Member-list parser of a JSON object, entered at the opening quote of a
key; `fuel` bounds the number of members.  Only string values are accepted:
a snapshot is an object of strings, and `JSON.parse` results of any other
shape are rejected by the embedding. -/
def parseMembersF : Nat → List Char → Option (List (String × String) × List Char)
  | 0, _ => none
  | fuel + 1, l =>
    match l with
    | '\"' :: rest =>
      match parseStringBody rest with
      | some (k, rest2) =>
        match skipWs rest2 with
        | ':' :: rest3 =>
          match skipWs rest3 with
          | '\"' :: rest4 =>
            match parseStringBody rest4 with
            | some (v, rest5) =>
              match skipWs rest5 with
              | ',' :: rest6 =>
                match parseMembersF fuel (skipWs rest6) with
                | some (ms, rest7) => some ((String.mk k, String.mk v) :: ms, rest7)
                | none => none
              | '\x7d' :: rest6 => some ([(String.mk k, String.mk v)], rest6)
              | _ => none
            | none => none
          | _ => none
        | _ => none
      | none => none
    | _ => none

/-- Build the object value from a parsed member list with the JavaScript
duplicate-key semantics of `JSON.parse`: later occurrences of a key
overwrite the earlier value in place. -/
def objFromMembers (ms : List (String × String)) : Snapshot :=
  ms.foldl (fun acc kv => jsSet acc kv.1 kv.2) []

/-- Embedding of `JSON.parse` restricted to objects with string values: optional leading
whitespace, a braced member list, optional trailing whitespace, end of
input.  Everything else — including every non-object JSON value — yields
`none`. -/
def decode (s : String) : Option Snapshot :=
  match skipWs s.data with
  | '\x7b' :: rest =>
    match skipWs rest with
    | '\x7d' :: rest2 => if skipWs rest2 = [] then some [] else none
    | rest1 =>
      match parseMembersF (s.data.length + 1) rest1 with
      | some (ms, rest2) =>
          if skipWs rest2 = [] then some (objFromMembers ms) else none
      | none => none
  | _ => none

theorem skipWs_cons_of_not_ws (c : Char) (l : List Char) (h : isJsonWs c = false) :
    skipWs (c :: l) = c :: l := by
  simp [skipWs, h]

theorem skipWs_cons_of_ws (c : Char) (l : List Char) (h : isJsonWs c = true) :
    skipWs (c :: l) = skipWs l := by
  simp [skipWs, h]

theorem jsSet_of_absent {α : Type} (o : JsObj α) (k : String) (v : α)
    (h : jsGet o k = none) : jsSet o k v = o ++ [(k, v)] := by
  induction o with
  | nil => rfl
  | cons kv rest ih =>
      obtain ⟨k₀, v₀⟩ := kv
      by_cases hk : k₀ = k
      · simp [jsGet, hk] at h
      · simp only [jsGet, if_neg hk] at h
        simp [jsSet, hk, ih h]

theorem jsGet_append_left_none {α : Type} (a b : JsObj α) (k : String)
    (h : jsGet a k = none) : jsGet (a ++ b) k = jsGet b k := by
  induction a with
  | nil => rfl
  | cons kv rest ih =>
      obtain ⟨k₀, v₀⟩ := kv
      by_cases hk : k₀ = k
      · simp [jsGet, hk] at h
      · simp only [jsGet, if_neg hk] at h
        simp [jsGet, hk, ih h]

theorem foldl_jsSet_append (ms : List (String × String)) :
    ∀ acc : Snapshot, (ms.map Prod.fst).Nodup →
      (∀ p ∈ ms, jsGet acc p.1 = none) →
      ms.foldl (fun a kv => jsSet a kv.1 kv.2) acc = acc ++ ms := by
  induction ms with
  | nil => intro acc _ _; simp
  | cons kv tl ih =>
      intro acc hnd habs
      obtain ⟨k, v⟩ := kv
      simp only [List.map_cons, List.nodup_cons] at hnd
      have hk : jsGet acc k = none := habs (k, v) (by simp)
      have hstep : jsSet acc k v = acc ++ [(k, v)] := jsSet_of_absent _ _ _ hk
      have habs' : ∀ p ∈ tl, jsGet (acc ++ [(k, v)]) p.1 = none := by
        intro p hp
        have h1 : jsGet acc p.1 = none := habs p (by simp [hp])
        rw [jsGet_append_left_none _ _ _ h1]
        have hne : p.1 ≠ k := by
          intro he
          exact hnd.1 (he ▸ List.mem_map_of_mem Prod.fst hp)
        simp [jsGet, Ne.symm hne]
      calc (((k, v) :: tl).foldl (fun a kv => jsSet a kv.1 kv.2) acc)
        = tl.foldl (fun a kv => jsSet a kv.1 kv.2) (acc ++ [(k, v)]) := by
            simp [List.foldl_cons, hstep]
      _ = (acc ++ [(k, v)]) ++ tl := ih _ hnd.2 habs'
      _ = acc ++ ((k, v) :: tl) := by simp

theorem objFromMembers_eq_self (s : Snapshot) (h : (s.map Prod.fst).Nodup) :
    objFromMembers s = s := by
  have := foldl_jsSet_append s [] h (by intro p _; rfl)
  simpa [objFromMembers] using this

theorem quoteChars_length (s : String) : 2 ≤ (quoteChars s).length := by
  simp [quoteChars]

theorem memberChars_length_ge : ∀ s : Snapshot, s.length ≤ (memberChars s).length := by
  intro s
  induction s with
  | nil => simp [memberChars]
  | cons kv tl ih =>
      obtain ⟨k, v⟩ := kv
      cases tl with
      | nil =>
          simp only [memberChars, List.length_cons, List.length_append]
          have := quoteChars_length k
          simp only [List.length_nil]
          omega
      | cons kv' tl' =>
          simp only [memberChars] at ih ⊢
          simp only [List.length_cons, List.length_append] at ih ⊢
          have := quoteChars_length k
          omega

theorem parseMembersF_memberChars :
    ∀ (s : Snapshot) (fuel : Nat) (rest : List Char), s ≠ [] → s.length < fuel →
      parseMembersF fuel (memberChars s ++ '\n' :: '\x7d' :: rest) = some (s, rest) := by
  intro s
  induction s with
  | nil => intro fuel rest hne _; exact absurd rfl hne
  | cons kv tl ih =>
      intro fuel rest _ hlen
      obtain ⟨k, v⟩ := kv
      obtain ⟨f, rfl⟩ : ∃ f, fuel = f + 1 := ⟨fuel - 1, by omega⟩
      cases tl with
      | nil =>
          have hin : memberChars [(k, v)] ++ '\n' :: '\x7d' :: rest
              = '\"' :: (escapeList k.data ++ '\"' ::
                  (':' :: ' ' :: ('\"' :: (escapeList v.data ++ '\"' ::
                    ('\n' :: '\x7d' :: rest))))) := by
            simp [memberChars, quoteChars]
          rw [hin, parseMembersF.eq_def]
          simp [parseStringBody_escapeList, skipWs, isJsonWs]
      | cons kv' tl' =>
          obtain ⟨t, ht⟩ : ∃ t, memberChars (kv' :: tl') = '\"' :: t := by
            obtain ⟨k', v'⟩ := kv'
            refine ⟨escapeList k'.data ++ '\"' :: ':' :: ' ' :: '\"' ::
              (escapeList v'.data ++ '\"' ::
                (match tl' with
                 | [] => ([] : List Char)
                 | _ :: _ => ',' :: '\n' :: ' ' :: ' ' :: memberChars tl')), ?_⟩
            show quoteChars k' ++ ':' :: ' ' :: quoteChars v' ++ _ = _
            simp [quoteChars]
            cases tl' <;> rfl
          have hih := ih f rest (by simp) (by simp at hlen ⊢; omega)
          rw [ht] at hih
          simp only [List.cons_append] at hih
          have hin : memberChars ((k, v) :: kv' :: tl') ++ '\n' :: '\x7d' :: rest
              = '\"' :: (escapeList k.data ++ '\"' ::
                  (':' :: ' ' :: ('\"' :: (escapeList v.data ++ '\"' ::
                    (',' :: '\n' :: ' ' :: ' ' ::
                      ('\"' :: (t ++ '\n' :: '\x7d' :: rest))))))) := by
            conv_lhs =>
              rw [show memberChars ((k, v) :: kv' :: tl')
                  = quoteChars k ++ ':' :: ' ' :: quoteChars v ++
                      (',' :: '\n' :: ' ' :: ' ' :: memberChars (kv' :: tl')) from rfl,
                ht]
            simp [quoteChars]
          rw [hin, parseMembersF.eq_def]
          simp [parseStringBody_escapeList, skipWs, isJsonWs, hih]

theorem memberChars_head (kv : String × String) (tl : List (String × String)) :
    ∃ t, memberChars (kv :: tl) = '\"' :: t := by
  obtain ⟨k, v⟩ := kv
  refine ⟨escapeList k.data ++ '\"' :: ':' :: ' ' :: '\"' ::
    (escapeList v.data ++ '\"' ::
      (match tl with
       | [] => ([] : List Char)
       | _ :: _ => ',' :: '\n' :: ' ' :: ' ' :: memberChars tl)), ?_⟩
  show quoteChars k ++ ':' :: ' ' :: quoteChars v ++ _ = _
  simp [quoteChars]

/-- C6: the codec round-trip law — for every snapshot, an ordered
key-to-value string mapping (a JavaScript object, so its keys are
distinct), `JSON.parse` of `JSON.stringify(·, null, 2)` returns the same
snapshot. -/
theorem decode_encode (s : Snapshot) (h : (s.map Prod.fst).Nodup) :
    decode (encode s) = some s := by
  cases s with
  | nil => rfl
  | cons kv tl =>
      obtain ⟨t, ht⟩ := memberChars_head kv tl
      simp only [decode]
      rw [show (encode (kv :: tl)).data
          = '\x7b' :: '\n' :: ' ' :: ' ' :: (memberChars (kv :: tl) ++ ['\n', '\x7d'])
          from rfl, ht]
      have hlt : (kv :: tl).length < ('\x7b' :: '\n' :: ' ' :: ' ' ::
          (('\"' :: t) ++ ['\n', '\x7d'])).length + 1 := by
        have h1 := memberChars_length_ge (kv :: tl)
        rw [ht] at h1
        simp at h1 ⊢
        omega
      have hpm : parseMembersF (('\x7b' :: '\n' :: ' ' :: ' ' ::
          (('\"' :: t) ++ ['\n', '\x7d'])).length + 1)
            (memberChars (kv :: tl) ++ '\n' :: '\x7d' :: [])
          = some (kv :: tl, []) :=
        parseMembersF_memberChars (kv :: tl) _ [] (by simp) hlt
      rw [ht] at hpm
      simp only [List.cons_append] at hpm
      simp at hpm
      simp [skipWs, isJsonWs, hpm, objFromMembers_eq_self _ h]

/-- Grounding check: the encoder reproduces the exact
`JSON.stringify(config, null, 2)` layout on a two-entry snapshot. -/
theorem encode_layout_example :
    encode [("a", "1"), ("b", "2")]
      = "\x7b\n  \"a\": \"1\",\n  \"b\": \"2\"\n\x7d" := by
  decide

/-! ## Content uploader (`ipfsUploader.ts`)

The Pinata service is embedded as an oracle `PinataWorld` fixing the
environment variable `VITE_PINATA_JWT` and the outcomes of the two remote
operations (`testAuthentication`, `upload.public.file`), together with an
explicit trace of the network events a run performs, in order. -/

/-- One remote interaction of the publish pipeline. -/
inductive NetEvent : Type
  | auth (jwt : String)
  | uploadBytes (payload : String)
  | publishName (cid : String)
deriving DecidableEq

/-- The `UploadResult` interface of `ipfsUploader.ts`. -/
structure UploadResult where
  success : Bool
  ipfsHash : Option String := none
  error : Option String := none
deriving DecidableEq

/-- Oracle for the remote Pinata service: the ambient environment variable
and the responses of authentication and upload. -/
structure PinataWorld where
  envJwt : Option String
  authResult : String → Except String Unit
  uploadResult : String → String → Except String String

/-- JavaScript truthiness of an optional string: `undefined` and the empty
string are falsy. -/
def truthy : Option String → Bool
  | none => false
  | some s => s ≠ ""

/-- The JavaScript `a || b` on optional strings. -/
def jsOrString (a b : Option String) : Option String :=
  if truthy a then a else b

/-- Embedding of `getPinataInstance`: `pinataJwt || import.meta.env.VITE_PINATA_JWT`,
throwing when the result is falsy; the returned instance is represented by
the JWT it was configured with. -/
def getPinataInstance (pinataJwt : Option String) (envJwt : Option String) :
    Except String String :=
  if truthy (jsOrString pinataJwt envJwt) = false then
    Except.error "Pinata JWT is required - either from config._env.pinataJWT or VITE_PINATA_JWT environment variable"
  else Except.ok ((jsOrString pinataJwt envJwt).getD "")

/-- Embedding of `uploadConfigToIPFS`: build the instance, test authentication, then
upload `JSON.stringify(config, null, 2)` under the environment name; the
surrounding `try`/`catch` turns every thrown error into a structured
`\x7bsuccess: false, error\x7d` result.  Returns the result together with
the network events performed. -/
def uploadConfigToIPFS (config : Snapshot) (environmentName : String)
    (pinataJWT : Option String) (w : PinataWorld) : UploadResult × List NetEvent :=
  match getPinataInstance pinataJWT w.envJwt with
  | Except.error e => ({ success := false, error := some e }, [])
  | Except.ok jwt =>
    match w.authResult jwt with
    | Except.error e => ({ success := false, error := some e }, [NetEvent.auth jwt])
    | Except.ok () =>
      match w.uploadResult (encode config) environmentName with
      | Except.error e =>
          ({ success := false, error := some e },
            [NetEvent.auth jwt, NetEvent.uploadBytes (encode config)])
      | Except.ok cid =>
          ({ success := true, ipfsHash := some cid },
            [NetEvent.auth jwt, NetEvent.uploadBytes (encode config)])

/-- Embedding of `isPinataConfigured`: `!!(pinataJWT || import.meta.env.VITE_PINATA_JWT)`. -/
def isPinataConfigured (pinataJWT : Option String) (envJwt : Option String) : Bool :=
  truthy (jsOrString pinataJWT envJwt)

/-- Embedding of `getUploadStatusMessage`: advisory status line for an environment. -/
def getUploadStatusMessage (environmentName : String) (envJwt : Option String) : String :=
  if isPinataConfigured none envJwt = false then
    "Pinata not configured. Please set VITE_PINATA_JWT environment variable."
  else "Ready to upload " ++ environmentName ++ " configuration to IPFS"

theorem uploadConfigToIPFS_success_shape (config : Snapshot) (environmentName : String)
    (pinataJWT : Option String) (w : PinataWorld)
    (h : (uploadConfigToIPFS config environmentName pinataJWT w).1.success = true) :
    ∃ j cid,
      (uploadConfigToIPFS config environmentName pinataJWT w).1
          = { success := true, ipfsHash := some cid } ∧
      (uploadConfigToIPFS config environmentName pinataJWT w).2
          = [NetEvent.auth j, NetEvent.uploadBytes (encode config)] ∧
      w.authResult j = Except.ok () ∧
      w.uploadResult (encode config) environmentName = Except.ok cid := by
  rcases hg : getPinataInstance pinataJWT w.envJwt with e | jwt
  · simp [uploadConfigToIPFS, hg] at h
  rcases ha : w.authResult jwt with e | u
  · simp [uploadConfigToIPFS, hg, ha] at h
  obtain ⟨⟩ := u
  rcases hu : w.uploadResult (encode config) environmentName with e | cid
  · simp [uploadConfigToIPFS, hg, ha, hu] at h
  refine ⟨jwt, cid, ?_, ?_, ha, rfl⟩ <;> simp [uploadConfigToIPFS, hg, ha, hu]

theorem uploadConfigToIPFS_trace_shape (config : Snapshot) (environmentName : String)
    (pinataJWT : Option String) (w : PinataWorld) :
    ∀ ev ∈ (uploadConfigToIPFS config environmentName pinataJWT w).2,
      (∃ j, ev = NetEvent.auth j) ∨ ev = NetEvent.uploadBytes (encode config) := by
  intro ev hev
  rcases hg : getPinataInstance pinataJWT w.envJwt with e | jwt
  · simp [uploadConfigToIPFS, hg] at hev
  rcases ha : w.authResult jwt with e | u
  · simp [uploadConfigToIPFS, hg, ha] at hev
    exact Or.inl ⟨jwt, hev⟩
  obtain ⟨⟩ := u
  rcases hu : w.uploadResult (encode config) environmentName with e | cid <;>
      simp [uploadConfigToIPFS, hg, ha, hu] at hev <;>
    rcases hev with hev | hev
  · exact Or.inl ⟨jwt, hev⟩
  · exact Or.inr hev
  · exact Or.inl ⟨jwt, hev⟩
  · exact Or.inr hev

/-- C4: `uploadConfigToIPFS` never raises to its caller: for every input
and every service behaviour the run returns a structured result — success
carrying a content identifier, or failure carrying an error message. -/
theorem uploadConfigToIPFS_total (config : Snapshot) (environmentName : String)
    (pinataJWT : Option String) (w : PinataWorld) :
    ((uploadConfigToIPFS config environmentName pinataJWT w).1.success = true ∧
      ∃ cid, (uploadConfigToIPFS config environmentName pinataJWT w).1.ipfsHash
        = some cid) ∨
    ((uploadConfigToIPFS config environmentName pinataJWT w).1.success = false ∧
      ∃ e, (uploadConfigToIPFS config environmentName pinataJWT w).1.error
        = some e) := by
  rcases hg : getPinataInstance pinataJWT w.envJwt with e | jwt
  · exact Or.inr ⟨by simp [uploadConfigToIPFS, hg], e, by simp [uploadConfigToIPFS, hg]⟩
  rcases ha : w.authResult jwt with e | u
  · exact Or.inr ⟨by simp [uploadConfigToIPFS, hg, ha], e,
      by simp [uploadConfigToIPFS, hg, ha]⟩
  obtain ⟨⟩ := u
  rcases hu : w.uploadResult (encode config) environmentName with e | cid
  · exact Or.inr ⟨by simp [uploadConfigToIPFS, hg, ha, hu], e,
      by simp [uploadConfigToIPFS, hg, ha, hu]⟩
  · exact Or.inl ⟨by simp [uploadConfigToIPFS, hg, ha, hu], cid,
      by simp [uploadConfigToIPFS, hg, ha, hu]⟩

/-- C5: the service credential is resolved before anything else: with no
usable credential the call fails without any network contact; the
authentication test strictly precedes the upload, and an upload event only
ever happens directly after a successful authentication — so with a
missing or rejected credential no bytes are stored. -/
theorem uploadConfigToIPFS_failFast (config : Snapshot) (environmentName : String)
    (pinataJWT : Option String) (w : PinataWorld) :
    (truthy (jsOrString pinataJWT w.envJwt) = false →
      (uploadConfigToIPFS config environmentName pinataJWT w).2 = [] ∧
      (uploadConfigToIPFS config environmentName pinataJWT w).1.success = false) ∧
    (∀ payload, NetEvent.uploadBytes payload
        ∈ (uploadConfigToIPFS config environmentName pinataJWT w).2 →
      ∃ j, w.authResult j = Except.ok () ∧
        (uploadConfigToIPFS config environmentName pinataJWT w).2
          = [NetEvent.auth j, NetEvent.uploadBytes payload]) ∧
    (∀ e, w.authResult ((jsOrString pinataJWT w.envJwt).getD "") = Except.error e →
      ∀ payload, NetEvent.uploadBytes payload
        ∉ (uploadConfigToIPFS config environmentName pinataJWT w).2) := by
  refine ⟨?_, ?_, ?_⟩
  · intro hfalsy
    have hg : getPinataInstance pinataJWT w.envJwt
        = Except.error "Pinata JWT is required - either from config._env.pinataJWT or VITE_PINATA_JWT environment variable" := by
      unfold getPinataInstance
      rw [hfalsy]
      simp
    exact ⟨by simp [uploadConfigToIPFS, hg], by simp [uploadConfigToIPFS, hg]⟩
  · intro payload hmem
    rcases hg : getPinataInstance pinataJWT w.envJwt with e | jwt
    · simp [uploadConfigToIPFS, hg] at hmem
    rcases ha : w.authResult jwt with e | u
    · simp [uploadConfigToIPFS, hg, ha] at hmem
    obtain ⟨⟩ := u
    rcases hu : w.uploadResult (encode config) environmentName with e | cid <;>
        simp [uploadConfigToIPFS, hg, ha, hu] at hmem <;>
      exact ⟨jwt, ha, by simp [uploadConfigToIPFS, hg, ha, hu, hmem]⟩
  · intro e hauth payload hmem
    rcases hg : getPinataInstance pinataJWT w.envJwt with e' | jwt
    · simp [uploadConfigToIPFS, hg] at hmem
    have hjwt : jwt = (jsOrString pinataJWT w.envJwt).getD "" := by
      unfold getPinataInstance at hg
      rcases htr : truthy (jsOrString pinataJWT w.envJwt) with _ | _ <;>
        rw [htr] at hg <;> simp at hg
      exact hg.symm
    rw [hjwt] at hg
    simp [uploadConfigToIPFS, hg, hauth] at hmem

theorem uploadConfigToIPFS_trace_head (config : Snapshot) (environmentName : String)
    (pinataJWT : Option String) (w : PinataWorld) (j : String)
    (hg : getPinataInstance pinataJWT w.envJwt = Except.ok j) :
    (uploadConfigToIPFS config environmentName pinataJWT w).2.head?
      = some (NetEvent.auth j) := by
  rcases ha : w.authResult j with e | u
  · simp [uploadConfigToIPFS, hg, ha]
  obtain ⟨⟩ := u
  rcases hu : w.uploadResult (encode config) environmentName with e | cid <;>
    simp [uploadConfigToIPFS, hg, ha, hu]

/-- C8: credential precedence — when the config-supplied service credential
is usable (non-empty) it is the one the upload call authenticates with,
regardless of the environment-variable fallback; the fallback is consulted
only when the config-supplied credential is absent or empty. -/
theorem credential_precedence (config : Snapshot) (environmentName : String)
    (arg : Option String) (w : PinataWorld) :
    (truthy arg = true →
      jsOrString arg w.envJwt = arg ∧
      ∃ s, arg = some s ∧
        (uploadConfigToIPFS config environmentName arg w).2.head?
          = some (NetEvent.auth s)) ∧
    (truthy arg = false →
      jsOrString arg w.envJwt = w.envJwt ∧
      (truthy w.envJwt = true →
        ∃ s, w.envJwt = some s ∧
          (uploadConfigToIPFS config environmentName arg w).2.head?
            = some (NetEvent.auth s))) := by
  constructor
  · intro htr
    have hjs : jsOrString arg w.envJwt = arg := by simp [jsOrString, htr]
    obtain ⟨s, rfl⟩ : ∃ s, arg = some s := by
      cases arg with
      | none => simp [truthy] at htr
      | some s => exact ⟨s, rfl⟩
    refine ⟨hjs, s, rfl, ?_⟩
    apply uploadConfigToIPFS_trace_head
    unfold getPinataInstance
    rw [hjs, htr]
    simp
  · intro htr
    have hjs : jsOrString arg w.envJwt = w.envJwt := by simp [jsOrString, htr]
    refine ⟨hjs, ?_⟩
    intro htre
    obtain ⟨s, hs⟩ : ∃ s, w.envJwt = some s := by
      cases hE : w.envJwt with
      | none => rw [hE] at htre; simp [truthy] at htre
      | some s => exact ⟨s, rfl⟩
    refine ⟨s, hs, ?_⟩
    apply uploadConfigToIPFS_trace_head
    unfold getPinataInstance
    rw [hjs, htre, hs]
    simp

/-- C9: `isPinataConfigured` is a pure boolean capability check: it is a
plain function of its two credential inputs with no world argument and no
event trace, true exactly when one of the two credentials is non-empty —
equivalently, exactly when `getPinataInstance` would succeed. -/
theorem isPinataConfigured_pure (pinataJWT envJwt : Option String) :
    (isPinataConfigured pinataJWT envJwt = (truthy pinataJWT || truthy envJwt)) ∧
    (isPinataConfigured pinataJWT envJwt = true ↔
      ∃ j, getPinataInstance pinataJWT envJwt = Except.ok j) := by
  constructor
  · cases htr : truthy pinataJWT <;> simp [isPinataConfigured, jsOrString, htr]
  · unfold isPinataConfigured getPinataInstance
    cases htr : truthy (jsOrString pinataJWT envJwt) <;> simp [htr]

/-! ## Publisher orchestrator

`handleUploadAndPublish` in `EnvironmentTab.tsx` drives the pipeline
through `uploadAndUpdateIPNS` from `src/services/ipnsUpdater.ts`, passing
`uploadConfigToIPFS` as the uploader; that service file is not among the
provided sources, so the orchestrator is modelled from the specification
(§4.4) and from its observable contract at the call site (the
`\x7bipfsResult, ipnsResult\x7d` pair `handleUploadAndPublish`
destructures, where a missing IPNS private key yields no `ipnsResult` and
an upload failure short-circuits). -/

/-- The name-update half of a `PublishOutcome`. -/
inductive NameUpdateResult : Type
  | ok (ipnsName : String)
  | failed (error : String)
  | skipped (reason : String)
deriving DecidableEq

/-- The itemized outcome of one publish invocation. -/
structure PublishOutcome where
  uploadResult : UploadResult
  nameUpdateResult : NameUpdateResult
deriving DecidableEq

/-- Oracle for the IPNS naming network: the response to a signed publish
of a content identifier under the credential-derived name. -/
structure IpnsWorld where
  publishResult : String → String → Except String String

/-- Modelled from the spec: `uploadAndUpdateIPNS`, the Publisher
Orchestrator of §4.4, implemented in `src/services/ipnsUpdater.ts` which is
not among the provided sources.  Step 1–2: encode and upload (the real
`uploadConfigToIPFS` embedding above, as passed in by
`handleUploadAndPublish`); on upload failure return immediately with the
name update skipped.  Step 3: with no owning credential, skip the name
update with reason `no credential`.  Step 4: otherwise invoke the naming
publish primitive on the fresh identifier; its failure is reported
alongside the successful upload.  The second component is the combined
network-event trace, in order. -/
def uploadAndUpdateIPNS (config : Snapshot) (environmentName : String)
    (credential : Option String) (pinataJWT : Option String)
    (pw : PinataWorld) (iw : IpnsWorld) : PublishOutcome × List NetEvent :=
  match uploadConfigToIPFS config environmentName pinataJWT pw with
  | (ur, tr) =>
    match ur.success, ur.ipfsHash with
    | true, some cid =>
      match credential with
      | none =>
          ({ uploadResult := ur, nameUpdateResult := NameUpdateResult.skipped "no credential" }, tr)
      | some cred =>
          match iw.publishResult cred cid with
          | Except.ok ipnsName =>
              ({ uploadResult := ur, nameUpdateResult := NameUpdateResult.ok ipnsName },
                tr ++ [NetEvent.publishName cid])
          | Except.error e =>
              ({ uploadResult := ur, nameUpdateResult := NameUpdateResult.failed e },
                tr ++ [NetEvent.publishName cid])
    | _, _ =>
        ({ uploadResult := ur, nameUpdateResult := NameUpdateResult.skipped "upload failed" }, tr)

theorem publishName_notMem_uploadTrace (config : Snapshot) (environmentName : String)
    (pinataJWT : Option String) (pw : PinataWorld) :
    ∀ cid, NetEvent.publishName cid
      ∉ (uploadConfigToIPFS config environmentName pinataJWT pw).2 := by
  intro cid hmem
  rcases uploadConfigToIPFS_trace_shape config environmentName pinataJWT pw _ hmem with ⟨j, hj⟩ | hb
  · exact NetEvent.noConfusion hj
  · exact NetEvent.noConfusion hb

/-- C1: in every publish invocation the name update is sequenced strictly
after its own successful upload: when the upload fails no naming event is
in the trace at all, and every naming event closes the trace, observes
exactly the identifier the successful upload returned, and is preceded by
the upload transfer of that same invocation. -/
theorem publish_uploadBeforeName (config : Snapshot) (environmentName : String)
    (credential pinataJWT : Option String) (pw : PinataWorld) (iw : IpnsWorld) :
    ((uploadAndUpdateIPNS config environmentName credential pinataJWT pw iw).1.uploadResult.success = false →
      ∀ cid, NetEvent.publishName cid
        ∉ (uploadAndUpdateIPNS config environmentName credential pinataJWT pw iw).2) ∧
    (∀ cid, NetEvent.publishName cid
        ∈ (uploadAndUpdateIPNS config environmentName credential pinataJWT pw iw).2 →
      (uploadAndUpdateIPNS config environmentName credential pinataJWT pw iw).1.uploadResult.success = true ∧
      (uploadAndUpdateIPNS config environmentName credential pinataJWT pw iw).1.uploadResult.ipfsHash = some cid ∧
      ∃ pre, (uploadAndUpdateIPNS config environmentName credential pinataJWT pw iw).2
          = pre ++ [NetEvent.publishName cid] ∧
        NetEvent.uploadBytes (encode config) ∈ pre) := by
  have hnp := publishName_notMem_uploadTrace config environmentName pinataJWT pw
  by_cases hs : (uploadConfigToIPFS config environmentName pinataJWT pw).1.success = true
  · obtain ⟨j, cid0, hres, htr, ha, hu⟩ :=
      uploadConfigToIPFS_success_shape config environmentName pinataJWT pw hs
    cases credential with
    | none =>
        have heq : uploadAndUpdateIPNS config environmentName none pinataJWT pw iw
            = ({ uploadResult := (uploadConfigToIPFS config environmentName pinataJWT pw).1,
                 nameUpdateResult := NameUpdateResult.skipped "no credential" },
               (uploadConfigToIPFS config environmentName pinataJWT pw).2) := by
          rcases hUP : uploadConfigToIPFS config environmentName pinataJWT pw with ⟨ur, tr⟩
          rw [hUP] at hres
          simp at hres
          simp only [uploadAndUpdateIPNS, hUP]
          simp [hres]
        rw [heq]
        constructor
        · intro hfail
          rw [hres] at hfail
          simp at hfail
        · intro cid hmem
          exact absurd hmem (hnp cid)
    | some cred =>
        have heq : uploadAndUpdateIPNS config environmentName (some cred) pinataJWT pw iw
            = ({ uploadResult := (uploadConfigToIPFS config environmentName pinataJWT pw).1,
                 nameUpdateResult :=
                   match iw.publishResult cred cid0 with
                   | Except.ok nm => NameUpdateResult.ok nm
                   | Except.error e => NameUpdateResult.failed e },
               (uploadConfigToIPFS config environmentName pinataJWT pw).2
                 ++ [NetEvent.publishName cid0]) := by
          rcases hUP : uploadConfigToIPFS config environmentName pinataJWT pw with ⟨ur, tr⟩
          rw [hUP] at hres
          simp at hres
          simp only [uploadAndUpdateIPNS, hUP]
          rcases hP : iw.publishResult cred cid0 with e | nm <;> simp [hres, hP]
        rw [heq]
        constructor
        · intro hfail
          rw [hres] at hfail
          simp at hfail
        · intro cid hmem
          simp only [List.mem_append, List.mem_singleton] at hmem
          rcases hmem with hin | hpub
          · exact absurd hin (hnp cid)
          · obtain rfl : cid = cid0 := by
              simpa using congrArg (fun ev => match ev with
                | NetEvent.publishName c => c
                | _ => cid) hpub
            refine ⟨by simp [hres], by simp [hres],
              (uploadConfigToIPFS config environmentName pinataJWT pw).2, rfl, ?_⟩
            rw [htr]
            simp
  · have hsf : (uploadConfigToIPFS config environmentName pinataJWT pw).1.success = false := by
      revert hs
      cases (uploadConfigToIPFS config environmentName pinataJWT pw).1.success <;> simp
    have heq : uploadAndUpdateIPNS config environmentName credential pinataJWT pw iw
        = ({ uploadResult := (uploadConfigToIPFS config environmentName pinataJWT pw).1,
             nameUpdateResult := NameUpdateResult.skipped "upload failed" },
           (uploadConfigToIPFS config environmentName pinataJWT pw).2) := by
      rcases hUP : uploadConfigToIPFS config environmentName pinataJWT pw with ⟨ur, tr⟩
      rw [hUP] at hsf
      simp at hsf
      simp only [uploadAndUpdateIPNS, hUP]
      simp [hsf]
    rw [heq]
    exact ⟨fun _ cid hmem => hnp cid hmem, fun cid hmem => absurd hmem (hnp cid)⟩

/-- C2: partial failure isolation — when the upload succeeded with
identifier `cid` and the subsequent name update fails, the returned
outcome still reports upload success with that same identifier, and the
naming failure is reported alongside it. -/
theorem publish_partialFailureIsolation (config : Snapshot) (environmentName : String)
    (cred : String) (pinataJWT : Option String) (pw : PinataWorld) (iw : IpnsWorld)
    (cid e : String)
    (hs : (uploadConfigToIPFS config environmentName pinataJWT pw).1.success = true)
    (hcid : (uploadConfigToIPFS config environmentName pinataJWT pw).1.ipfsHash = some cid)
    (hp : iw.publishResult cred cid = Except.error e) :
    (uploadAndUpdateIPNS config environmentName (some cred) pinataJWT pw iw).1.uploadResult.success = true ∧
    (uploadAndUpdateIPNS config environmentName (some cred) pinataJWT pw iw).1.uploadResult.ipfsHash = some cid ∧
    (uploadAndUpdateIPNS config environmentName (some cred) pinataJWT pw iw).1.nameUpdateResult
      = NameUpdateResult.failed e := by
  rcases hUP : uploadConfigToIPFS config environmentName pinataJWT pw with ⟨ur, tr⟩
  rw [hUP] at hs hcid
  simp at hs hcid
  simp only [uploadAndUpdateIPNS, hUP]
  simp [hs, hcid, hp]

/-- C3: when the environment record carries no owning credential, the
publish run never emits a naming event, the upload half of its outcome is
exactly the uploader result, and on upload success the name-update half
is the explicit `skipped "no credential"` state. -/
theorem publish_noCredentialSkip (config : Snapshot) (environmentName : String)
    (pinataJWT : Option String) (pw : PinataWorld) (iw : IpnsWorld) :
    (∀ cid, NetEvent.publishName cid
        ∉ (uploadAndUpdateIPNS config environmentName none pinataJWT pw iw).2) ∧
    (uploadAndUpdateIPNS config environmentName none pinataJWT pw iw).1.uploadResult
      = (uploadConfigToIPFS config environmentName pinataJWT pw).1 ∧
    ((uploadConfigToIPFS config environmentName pinataJWT pw).1.success = true →
      (uploadAndUpdateIPNS config environmentName none pinataJWT pw iw).1.nameUpdateResult
        = NameUpdateResult.skipped "no credential" ∧
      (uploadAndUpdateIPNS config environmentName none pinataJWT pw iw).1.uploadResult.success = true) := by
  have hnp := publishName_notMem_uploadTrace config environmentName pinataJWT pw
  by_cases hs : (uploadConfigToIPFS config environmentName pinataJWT pw).1.success = true
  · obtain ⟨j, cid0, hres, htr, ha, hu⟩ :=
      uploadConfigToIPFS_success_shape config environmentName pinataJWT pw hs
    have heq : uploadAndUpdateIPNS config environmentName none pinataJWT pw iw
        = ({ uploadResult := (uploadConfigToIPFS config environmentName pinataJWT pw).1,
             nameUpdateResult := NameUpdateResult.skipped "no credential" },
           (uploadConfigToIPFS config environmentName pinataJWT pw).2) := by
      rcases hUP : uploadConfigToIPFS config environmentName pinataJWT pw with ⟨ur, tr⟩
      rw [hUP] at hres
      simp at hres
      simp only [uploadAndUpdateIPNS, hUP]
      simp [hres]
    rw [heq]
    exact ⟨hnp, rfl, fun _ => ⟨rfl, hs⟩⟩
  · have hsf : (uploadConfigToIPFS config environmentName pinataJWT pw).1.success = false := by
      revert hs
      cases (uploadConfigToIPFS config environmentName pinataJWT pw).1.success <;> simp
    have heq : uploadAndUpdateIPNS config environmentName none pinataJWT pw iw
        = ({ uploadResult := (uploadConfigToIPFS config environmentName pinataJWT pw).1,
             nameUpdateResult := NameUpdateResult.skipped "upload failed" },
           (uploadConfigToIPFS config environmentName pinataJWT pw).2) := by
      rcases hUP : uploadConfigToIPFS config environmentName pinataJWT pw with ⟨ur, tr⟩
      rw [hUP] at hsf
      simp at hsf
      simp only [uploadAndUpdateIPNS, hUP]
      simp [hsf]
    rw [heq]
    exact ⟨hnp, rfl, fun hcontra => absurd hcontra hs⟩

/-! ## Claim witnesses on concrete runs -/

/-- C6 witness: the round-trip law evaluated on the concrete snapshot of
spec scenario A. -/
theorem decode_encode_witness :
    (([("a", "1"), ("b", "2")] : Snapshot).map Prod.fst).Nodup ∧
    decode (encode [("a", "1"), ("b", "2")]) = some [("a", "1"), ("b", "2")] :=
  ⟨by decide, decode_encode [("a", "1"), ("b", "2")] (by decide)⟩

/-- C7: encoding is deterministic — two serializations of the same logical
snapshot (the same ordered key-to-value mapping) produce byte-identical
output. -/
theorem encode_deterministic (s t : Snapshot) (h : s = t) : encode s = encode t := by
  rw [h]

/-- C7 witness: determinism evaluated on a concrete snapshot. -/
theorem encode_deterministic_witness :
    ([("a", "1")] : Snapshot) = [("a", "1")] ∧
    encode [("a", "1")] = encode [("a", "1")] :=
  ⟨rfl, encode_deterministic [("a", "1")] [("a", "1")] rfl⟩

/-- A Pinata oracle with an environment credential that accepts
authentication and stores every blob under `QmX`. -/
def pwOk : PinataWorld :=
  { envJwt := some "envjwt",
    authResult := fun _ => Except.ok (),
    uploadResult := fun _ _ => Except.ok "QmX" }

/-- A Pinata oracle with no environment credential. -/
def pwNone : PinataWorld :=
  { envJwt := none,
    authResult := fun _ => Except.ok (),
    uploadResult := fun _ _ => Except.ok "QmX" }

/-- A naming oracle that publishes every identifier under `k51name`. -/
def iwOk : IpnsWorld := { publishResult := fun _ _ => Except.ok "k51name" }

/-- A naming oracle that rejects every publish. -/
def iwFail : IpnsWorld := { publishResult := fun _ _ => Except.error "ipns unreachable" }

/-- C1 witness: the upload-before-name ordering evaluated on a concrete
successful publish run. -/
theorem publish_uploadBeforeName_witness :
    NetEvent.publishName "QmX"
      ∈ (uploadAndUpdateIPNS [("a", "1")] "dev" (some "cred") (some "jwt") pwOk iwOk).2 ∧
    ((uploadAndUpdateIPNS [("a", "1")] "dev" (some "cred") (some "jwt") pwOk iwOk).1.uploadResult.success = true ∧
      (uploadAndUpdateIPNS [("a", "1")] "dev" (some "cred") (some "jwt") pwOk iwOk).1.uploadResult.ipfsHash = some "QmX" ∧
      ∃ pre, (uploadAndUpdateIPNS [("a", "1")] "dev" (some "cred") (some "jwt") pwOk iwOk).2
          = pre ++ [NetEvent.publishName "QmX"] ∧
        NetEvent.uploadBytes (encode [("a", "1")]) ∈ pre) :=
  ⟨by decide,
    (publish_uploadBeforeName [("a", "1")] "dev" (some "cred") (some "jwt") pwOk iwOk).2
      "QmX" (by decide)⟩

/-- C2 witness: upload success with a failing name update evaluated on a
concrete run against the rejecting naming oracle. -/
theorem publish_partialFailureIsolation_witness :
    (uploadConfigToIPFS [("a", "1")] "dev" (some "jwt") pwOk).1.success = true ∧
    (uploadConfigToIPFS [("a", "1")] "dev" (some "jwt") pwOk).1.ipfsHash = some "QmX" ∧
    iwFail.publishResult "cred" "QmX" = Except.error "ipns unreachable" ∧
    ((uploadAndUpdateIPNS [("a", "1")] "dev" (some "cred") (some "jwt") pwOk iwFail).1.uploadResult.success = true ∧
      (uploadAndUpdateIPNS [("a", "1")] "dev" (some "cred") (some "jwt") pwOk iwFail).1.uploadResult.ipfsHash = some "QmX" ∧
      (uploadAndUpdateIPNS [("a", "1")] "dev" (some "cred") (some "jwt") pwOk iwFail).1.nameUpdateResult
        = NameUpdateResult.failed "ipns unreachable") :=
  ⟨by decide, by decide, rfl,
    publish_partialFailureIsolation [("a", "1")] "dev" "cred" (some "jwt") pwOk iwFail
      "QmX" "ipns unreachable" (by decide) (by decide) rfl⟩

/-- C3 witness: the no-credential skip evaluated on a concrete run. -/
theorem publish_noCredentialSkip_witness :
    (uploadConfigToIPFS [("a", "1")] "dev" (some "jwt") pwNone).1.success = true ∧
    ((uploadAndUpdateIPNS [("a", "1")] "dev" none (some "jwt") pwNone iwOk).1.nameUpdateResult
        = NameUpdateResult.skipped "no credential" ∧
      (uploadAndUpdateIPNS [("a", "1")] "dev" none (some "jwt") pwNone iwOk).1.uploadResult.success = true) :=
  ⟨by decide,
    (publish_noCredentialSkip [("a", "1")] "dev" (some "jwt") pwNone iwOk).2.2 (by decide)⟩

/-- C5 witness: the fail-fast behaviour evaluated with no credential at
all — the run performs no network event and fails. -/
theorem uploadConfigToIPFS_failFast_witness :
    truthy (jsOrString none pwNone.envJwt) = false ∧
    ((uploadConfigToIPFS [("a", "1")] "dev" none pwNone).2 = [] ∧
      (uploadConfigToIPFS [("a", "1")] "dev" none pwNone).1.success = false) :=
  ⟨by decide,
    (uploadConfigToIPFS_failFast [("a", "1")] "dev" none pwNone).1 (by decide)⟩

/-- C8 witness: the config-supplied credential wins over the
environment-variable fallback on a concrete run. -/
theorem credential_precedence_witness :
    truthy (some "k1") = true ∧
    (jsOrString (some "k1") pwOk.envJwt = some "k1" ∧
      ∃ s, (some "k1" : Option String) = some s ∧
        (uploadConfigToIPFS [("a", "1")] "dev" (some "k1") pwOk).2.head?
          = some (NetEvent.auth s)) :=
  ⟨by decide, (credential_precedence [("a", "1")] "dev" (some "k1") pwOk).1 (by decide)⟩

end VariablesUI
